import Mathlib

/-!
Shallow embedding of the bowling-kata scoring engine (`src/lib.rs`).

The Rust crate defines two types, `Frame` and `Game`, a `Score` trait with
`score(&self) -> i32`, and the methods `Game::roll`, `Game::set_next_indices`
and the two `score` implementations.  Rust `i32` pin counts are modelled as
`Int` (overflow plays no role in any claim), the ten-element array
`[Frame; 10]` as a `List Frame` of length 10, and the panicking index
expression `self.frames[self.current_frame_index]` as a `List.get?` lookup:
`Game.roll` returns `none` exactly when the Rust code would panic with an
index out of bounds.  Everything else is a direct functional rendering of
the imperative source (field mutation becomes record update at the indexed
position).
-/

namespace Bowling

/-! Definitions: the data model and the operations of the scoring engine,
translated from `src/lib.rs`, together with the concrete game states used by
the witness theorems. -/

/-- The `FrameBonusType` enum: `Spare` or `Strike`. -/
inductive FrameBonusType where
  | Spare : FrameBonusType
  | Strike : FrameBonusType
deriving DecidableEq, Repr, BEq

/-- The `Frame` struct: first roll pins, optional second roll pins, optional
bonus tag.  `#[derive(Default)]` gives `first_roll_pins = 0`,
`second_roll_pins = None`, `bonus = None`. -/
structure Frame where
  first_roll_pins : Int
  second_roll_pins : Option Int
  bonus : Option FrameBonusType
deriving DecidableEq, Repr

/-- Rust `Frame::default()`. -/
def Frame.default : Frame :=
  { first_roll_pins := 0, second_roll_pins := none, bonus := none }

/-- `Frame::rolls_score`: the first roll alone when no second roll was taken,
otherwise the sum of both rolls. -/
def Frame.rolls_score (f : Frame) : Int :=
  match f.second_roll_pins with
  | none => f.first_roll_pins
  | some s => f.first_roll_pins + s

/-- `<Frame as Score>::score`: base rolls score, plus (for a `Spare` bonus)
the first roll again, or (for a `Strike` bonus) the first roll and, when
present, the second roll again.  The `info!` log line is an observability
side effect with no behavioural significance and is not modelled. -/
def Frame.score (f : Frame) : Int :=
  let base := f.rolls_score
  match f.bonus with
  | none => base
  | some FrameBonusType.Spare => base + f.first_roll_pins
  | some FrameBonusType.Strike =>
      base + f.first_roll_pins +
        (match f.second_roll_pins with
         | some s => s
         | none => 0)

/-- The `Game` struct: ten frames (as a list of length 10), the cursor
(`current_frame_index`, `current_roll_index`), and the optional tenth-frame
fill-ball pin count. -/
structure Game where
  frames : List Frame
  current_frame_index : Nat
  current_roll_index : Nat
  bonus_tenth_frame_third_roll : Option Int
deriving DecidableEq, Repr

/-- Rust `Game::default()`: ten default frames, cursor at (0, 0), no fill
ball recorded. -/
def Game.default : Game :=
  { frames := List.replicate 10 Frame.default
    current_frame_index := 0
    current_roll_index := 0
    bonus_tenth_frame_third_roll := none }

/-- Replace the frame at position `i` by `f` applied to it; identity when `i`
is out of range.  This renders the Rust in-place mutation of one array slot
(`frame.first_roll_pins = pins`, `self.frames[i].bonus = bonus`, ...). -/
def modifyAt : List Frame → Nat → (Frame → Frame) → List Frame
  | [], _, _ => []
  | x :: xs, 0, f => f x :: xs
  | x :: xs, n + 1, f => x :: modifyAt xs n f

/-- `Game::set_next_indices`, as a pure function from the old cursor and the
bonus just produced to the new cursor `(current_frame_index,
current_roll_index)`.  Faithful to the Rust `match self.current_roll_index`:
from roll 0 a strike advances the frame (with no frame-9 guard), otherwise
the roll index becomes 1; from roll 1 a frame other than 9 advances, frame 9
grants roll 2 exactly when a bonus was produced; any other roll index leaves
the cursor unchanged. -/
def set_next_indices (current_frame_index current_roll_index : Nat)
    (bonus : Option FrameBonusType) : Nat × Nat :=
  match current_roll_index with
  | 0 =>
      let is_strike :=
        match bonus with
        | none => false
        | some x => x == FrameBonusType.Strike
      if !is_strike then
        (current_frame_index, 1)
      else
        (current_frame_index + 1, 0)
  | 1 =>
      if current_frame_index ≠ 9 then
        (current_frame_index + 1, 0)
      else
        match bonus with
        | some _ => (current_frame_index, 2)
        | none => (current_frame_index, 1)
  | _ => (current_frame_index, current_roll_index)

/-- The `next_frame_index` local of `Game::roll`:
`Some(current_frame_index + 1)` when that is `< 10`, else `None`. -/
def nextFrameIndex (cfi : Nat) : Option Nat :=
  if cfi + 1 < 10 then some (cfi + 1) else none

/-- The frame-array updates of the `match self.current_roll_index` in
`Game::roll`: roll 0 stores `first_roll_pins = pins` in the current frame,
roll 1 stores `second_roll_pins = Some(pins)`, any other roll index writes
nothing to the frames. -/
def rollFrames1 (frames : List Frame) (cfi ri : Nat) (pins : Int) : List Frame :=
  match ri with
  | 0 => modifyAt frames cfi (fun f => { f with first_roll_pins := pins })
  | 1 => modifyAt frames cfi (fun f => { f with second_roll_pins := some pins })
  | _ => frames

/-- The `bonus` local of `Game::roll`: a `Strike` when roll 0 scores
`pins == 10`, a `Spare` when roll 1 scores `pins + first_roll_pins == 10`,
otherwise `None`. -/
def rollBonus (ri : Nat) (pins first_roll_pins : Int) : Option FrameBonusType :=
  match ri with
  | 0 => if pins = 10 then some FrameBonusType.Strike else none
  | 1 => if pins + first_roll_pins = 10 then some FrameBonusType.Spare else none
  | _ => none

/-- The `bonus_tenth_frame_third_roll` update of `Game::roll`: roll 2 stores
`Some(pins)`, every other roll index leaves the old value. -/
def rollBttr (ri : Nat) (pins : Int) (old : Option Int) : Option Int :=
  match ri with
  | 2 => some pins
  | _ => old

/-- The `if let Some(i) = next_frame_index { self.frames[i].bonus = bonus }`
step of `Game::roll`: overwrite the next frame's `bonus` field when a next
frame exists. -/
def rollFrames2 (frames1 : List Frame) (cfi : Nat)
    (bonus : Option FrameBonusType) : List Frame :=
  match nextFrameIndex cfi with
  | some i => modifyAt frames1 i (fun f => { f with bonus := bonus })
  | none => frames1

/-- The successful-case body of `Game::roll`, given the frame read at
`current_frame_index`: perform the roll-index dispatch, the next-frame bonus
write, and the cursor advance. -/
def rollResult (g : Game) (frame : Frame) (pins : Int) : Game :=
  let bonus := rollBonus g.current_roll_index pins frame.first_roll_pins
  let next := set_next_indices g.current_frame_index g.current_roll_index bonus
  { frames := rollFrames2
      (rollFrames1 g.frames g.current_frame_index g.current_roll_index pins)
      g.current_frame_index bonus
    current_frame_index := next.1
    current_roll_index := next.2
    bonus_tenth_frame_third_roll :=
      rollBttr g.current_roll_index pins g.bonus_tenth_frame_third_roll }

/-- `Game::roll`.  The Rust method first takes
`&mut self.frames[self.current_frame_index]`, which panics when the index is
out of bounds: that lookup is the `List.get?` match and the panic is `none`.
The rest of the method body is `rollResult`. -/
def Game.roll (g : Game) (pins : Int) : Option Game :=
  match g.frames.get? g.current_frame_index with
  | none => none
  | some frame => some (rollResult g frame pins)

/-- `<Game as Score>::score`: fold over the frames accumulating
`Frame::score`, then add the fill-ball pins when present. -/
def Game.score (g : Game) : Int :=
  let total := g.frames.foldl (fun acc f => acc + f.score) 0
  match g.bonus_tenth_frame_third_roll with
  | some bonus_last_roll_pins => total + bonus_last_roll_pins
  | none => total

/-- Run a whole sequence of rolls from a starting state; `none` as soon as
one roll panics. -/
def rollSeq (g : Game) : List Int → Option Game
  | [] => some g
  | p :: ps =>
      match g.roll p with
      | none => none
      | some g' => rollSeq g' ps

/-- Rust `score(&self)` takes a shared borrow and can mutate nothing; as a
state-passing call it returns the computed total together with the receiver
state it leaves behind. -/
def Game.scoreCall (g : Game) : Int × Game :=
  (g.score, g)

/-- A concrete game at cursor (9, 1) with a 6 already rolled in frame 9,
used to exercise `claim6_tenth_frame_fill_ball`. -/
def gC6a : Game :=
  { frames := List.replicate 9 Frame.default ++
      [{ first_roll_pins := 6, second_roll_pins := none, bonus := none }]
    current_frame_index := 9
    current_roll_index := 1
    bonus_tenth_frame_third_roll := none }

/-- The state of `gC6a` after rolling a 4 (a spare in frame 9). -/
def gC6a1 : Game := (gC6a.roll 4).getD Game.default

/-- The state of `gC6a1` after the fill ball of 3. -/
def gC6a2 : Game := (gC6a1.roll 3).getD Game.default

/-- A concrete game at cursor (3, 1), used to exercise
`claim6_tenth_frame_fill_ball`. -/
def gC6b : Game :=
  { frames := List.replicate 10 Frame.default
    current_frame_index := 3
    current_roll_index := 1
    bonus_tenth_frame_third_roll := none }

/-- The state of `gC6b` after rolling a 2. -/
def gC6b1 : Game := (gC6b.roll 2).getD Game.default

/-- Modelled from the spec: the code keeps no explicit finished flag — the
spec says the terminal state is frame index 9 with the roll index left at 1
(second roll taken, no bonus earned) or with the roll-2 fill ball consumed,
and that callers must stop rolling there.  `finished` recognises exactly
those two terminal states. -/
def Game.finished (g : Game) : Bool :=
  (g.current_frame_index == 9 && g.current_roll_index == 1 &&
    (match g.frames.get? 9 with
     | some f => f.second_roll_pins.isSome
     | none => false)) ||
  (g.current_roll_index == 2 && g.bonus_tenth_frame_third_roll.isSome)

/-- Normal play: the states reached from `Game::default()` by successful
rolls of non-negative pin counts, never rolling on a finished game. -/
inductive NormalPlay : Game → Prop where
  | init : NormalPlay Game.default
  | step (g g' : Game) (pins : Int) : NormalPlay g → g.finished = false →
      0 ≤ pins → g.roll pins = some g' → NormalPlay g'

/-- The state invariant that normal play maintains: ten frames, roll index
at most 2; every frame from the cursor on (strictly past it once the first
roll of the current frame is in) still has its default roll fields; the
current frame has no second roll yet while awaiting one away from frame 9;
and roll index 2 happens only in frame 9. -/
structure GameInv (g : Game) : Prop where
  len : g.frames.length = 10
  rollIdxLe : g.current_roll_index ≤ 2
  ahead0 : g.current_roll_index = 0 → ∀ j, g.current_frame_index ≤ j →
    ∀ f, g.frames.get? j = some f →
      f.first_roll_pins = 0 ∧ f.second_roll_pins = none
  ahead1 : g.current_roll_index = 1 → ∀ j, g.current_frame_index < j →
    ∀ f, g.frames.get? j = some f →
      f.first_roll_pins = 0 ∧ f.second_roll_pins = none
  cur1 : g.current_roll_index = 1 → g.current_frame_index ≠ 9 →
    ∀ f, g.frames.get? g.current_frame_index = some f →
      f.second_roll_pins = none
  ri2 : g.current_roll_index = 2 → g.current_frame_index = 9

/-- The state of `Game.default` after one roll of 5, used to exercise
`claim8_score_monotone_normal_play`. -/
def gC8 : Game := (Game.default.roll 5).getD Game.default

/-- The state of `Game.default` after one roll of 4, used to exercise
`claim10_roll_frame_effect`. -/
def gC10 : Game := (Game.default.roll 4).getD Game.default

/-- The frame of `gC10` at position 5, used to exercise
`claim10_roll_frame_effect`. -/
def fC10 : Frame := (gC10.frames.get? 5).getD Frame.default

/-! Theorems: sanity examples and basic lemmas about the embedding, then
the claim theorems with their witnesses. -/

example : (rollSeq Game.default [4, 5]).map Game.score = some 9 := by decide

example : (rollSeq Game.default [7, 3, 5]).map Game.score = some 20 := by decide

example : (rollSeq Game.default [7, 3, 5, 2]).map Game.score = some 22 := by decide

example : (rollSeq Game.default [5, 3, 10, 2, 5]).map Game.score = some 32 := by decide

theorem modifyAt_length (l : List Frame) (i : Nat) (f : Frame → Frame) :
    (modifyAt l i f).length = l.length := by
  induction l generalizing i with
  | nil => rfl
  | cons x xs ih =>
      cases i with
      | zero => rfl
      | succ n => simpa [modifyAt] using ih n

theorem modifyAt_get? (l : List Frame) (i : Nat) (f : Frame → Frame) (j : Nat) :
    (modifyAt l i f).get? j =
      if j = i then (l.get? i).map f else l.get? j := by
  induction l generalizing i j with
  | nil => simp [modifyAt]
  | cons x xs ih =>
      cases i with
      | zero =>
          cases j with
          | zero => simp [modifyAt]
          | succ m => simp [modifyAt]
      | succ n =>
          cases j with
          | zero => simp [modifyAt]
          | succ m =>
              simp only [modifyAt, List.get?]
              rw [ih n m]
              by_cases h : m = n <;> simp [h]

theorem modifyAt_get?_ne (l : List Frame) (i : Nat) (f : Frame → Frame)
    (j : Nat) (h : j ≠ i) : (modifyAt l i f).get? j = l.get? j := by
  rw [modifyAt_get?]
  simp [h]

theorem rollFrames1_length (frames : List Frame) (cfi ri : Nat) (pins : Int) :
    (rollFrames1 frames cfi ri pins).length = frames.length := by
  match ri with
  | 0 => simp [rollFrames1, modifyAt_length]
  | 1 => simp [rollFrames1, modifyAt_length]
  | n + 2 => rfl

theorem rollFrames2_length (frames1 : List Frame) (cfi : Nat)
    (bonus : Option FrameBonusType) :
    (rollFrames2 frames1 cfi bonus).length = frames1.length := by
  unfold rollFrames2 nextFrameIndex
  by_cases h : cfi + 1 < 10 <;> simp [h, modifyAt_length]

theorem rollFrames1_get?_ne (frames : List Frame) (cfi ri : Nat) (pins : Int)
    (j : Nat) (h : j ≠ cfi) :
    (rollFrames1 frames cfi ri pins).get? j = frames.get? j := by
  match ri with
  | 0 => exact modifyAt_get?_ne _ _ _ _ h
  | 1 => exact modifyAt_get?_ne _ _ _ _ h
  | n + 2 => rfl

theorem rollFrames2_get?_ne (frames1 : List Frame) (cfi : Nat)
    (bonus : Option FrameBonusType) (j : Nat) (h : j ≠ cfi + 1) :
    (rollFrames2 frames1 cfi bonus).get? j = frames1.get? j := by
  unfold rollFrames2 nextFrameIndex
  by_cases hlt : cfi + 1 < 10
  · rw [if_pos hlt]
    exact modifyAt_get?_ne _ _ _ _ h
  · rw [if_neg hlt]

theorem rollFrames1_get?_bonus (frames : List Frame) (cfi ri : Nat) (pins : Int)
    (j : Nat) :
    ((rollFrames1 frames cfi ri pins).get? j).map Frame.bonus =
      (frames.get? j).map Frame.bonus := by
  by_cases h : j = cfi
  · subst h
    match ri with
    | 0 =>
        simp only [rollFrames1, modifyAt_get?, if_pos rfl]
        cases frames.get? j <;> rfl
    | 1 =>
        simp only [rollFrames1, modifyAt_get?, if_pos rfl]
        cases frames.get? j <;> rfl
    | n + 2 => rfl
  · rw [rollFrames1_get?_ne _ _ _ _ _ h]

theorem rollFrames2_get?_rolls (frames1 : List Frame) (cfi : Nat)
    (bonus : Option FrameBonusType) (j : Nat) :
    ((rollFrames2 frames1 cfi bonus).get? j).map
        (fun f => (f.first_roll_pins, f.second_roll_pins)) =
      (frames1.get? j).map (fun f => (f.first_roll_pins, f.second_roll_pins)) := by
  by_cases h : j = cfi + 1
  · subst h
    unfold rollFrames2 nextFrameIndex
    by_cases hlt : cfi + 1 < 10
    · simp only [hlt, if_pos, modifyAt_get?, if_pos rfl]
      cases frames1.get? (cfi + 1) <;> rfl
    · simp [hlt]
  · rw [rollFrames2_get?_ne _ _ _ _ h]

theorem roll_some_get? (g : Game) (pins : Int) (g' : Game)
    (h : g.roll pins = some g') :
    ∃ frame, g.frames.get? g.current_frame_index = some frame ∧
      g' = rollResult g frame pins := by
  unfold Game.roll at h
  cases hg : g.frames.get? g.current_frame_index with
  | none => rw [hg] at h; exact absurd h (by simp)
  | some frame =>
      rw [hg] at h
      exact ⟨frame, rfl, by injection h with h; exact h.symm⟩

theorem roll_get?_some (g : Game) (pins : Int) (frame : Frame)
    (h : g.frames.get? g.current_frame_index = some frame) :
    g.roll pins = some (rollResult g frame pins) := by
  unfold Game.roll
  rw [h]

theorem foldl_score (l : List Frame) (a : Int) :
    l.foldl (fun acc f => acc + f.score) a = a + (l.map Frame.score).sum := by
  induction l generalizing a with
  | nil => simp
  | cons x xs ih =>
      simp only [List.foldl_cons, List.map_cons, List.sum_cons, ih]
      ring

theorem score_eq_sum (g : Game) :
    g.score = (g.frames.map Frame.score).sum +
      g.bonus_tenth_frame_third_roll.getD 0 := by
  unfold Game.score
  rw [foldl_score]
  cases g.bonus_tenth_frame_third_roll <;> simp

theorem sum_map_score_modifyAt (l : List Frame) (i : Nat) (f : Frame → Frame)
    (x : Frame) (h : l.get? i = some x) :
    ((modifyAt l i f).map Frame.score).sum =
      (l.map Frame.score).sum - x.score + (f x).score := by
  induction l generalizing i with
  | nil => exact absurd h (by simp)
  | cons y ys ih =>
      cases i with
      | zero =>
          have hx : y = x := by
            have : some y = some x := h
            injection this
          subst hx
          simp only [modifyAt, List.map_cons, List.sum_cons]
          ring
      | succ n =>
          have h' : ys.get? n = some x := h
          simp only [modifyAt, List.map_cons, List.sum_cons, ih n h']
          ring

theorem frame_score_zero (f : Frame) (h1 : f.first_roll_pins = 0)
    (h2 : f.second_roll_pins = none) : f.score = 0 := by
  rcases f with ⟨fr, sr, b⟩
  simp only at h1 h2
  subst h1; subst h2
  rcases b with _ | b
  · rfl
  · cases b <;> rfl

theorem frame_score_bonus_write (f : Frame) (b : Option FrameBonusType)
    (h1 : f.first_roll_pins = 0) (h2 : f.second_roll_pins = none) :
    ({ f with bonus := b } : Frame).score = f.score := by
  rw [frame_score_zero f h1 h2]
  exact frame_score_zero _ h1 h2

theorem frame_score_first_write (f : Frame) (pins : Int)
    (h1 : f.first_roll_pins = 0) (h2 : f.second_roll_pins = none)
    (hp : 0 ≤ pins) :
    f.score ≤ ({ f with first_roll_pins := pins } : Frame).score := by
  rw [frame_score_zero f h1 h2]
  rcases f with ⟨fr, sr, b⟩
  simp only at h2
  subst h2
  rcases b with _ | b
  · simpa [Frame.score, Frame.rolls_score] using hp
  · cases b <;> simp [Frame.score, Frame.rolls_score] <;> omega

theorem frame_score_second_write (f : Frame) (pins : Int)
    (h2 : f.second_roll_pins = none) (hp : 0 ≤ pins) :
    f.score ≤ ({ f with second_roll_pins := some pins } : Frame).score := by
  rcases f with ⟨fr, sr, b⟩
  simp only at h2
  subst h2
  rcases b with _ | b
  · simp [Frame.score, Frame.rolls_score]; omega
  · cases b <;> simp [Frame.score, Frame.rolls_score] <;> omega

/-- C1: the claim says twelve consecutive `roll(10)` calls from
`Game::default()` complete and yield `score() == 300`.  They do not: the
tenth strike advances `current_frame_index` to 10, so the eleventh
`roll(10)` evaluates `self.frames[10]` and panics (modelled as `none`).
This contradicts the repository's own test
`it_should_return_a_perfect_score_of_300_with_a_full_game_of_strikes`. -/
theorem claim1_perfect_game_panics :
    rollSeq Game.default (List.replicate 12 10) = none := by decide

/-- C2: the claim says `current_frame_index` never exceeds 9 during normal
play, in particular after a strike in frame index 9 at roll index 0.  In
fact `set_next_indices` increments the frame index on every strike from
roll index 0 with no frame-9 guard, so ten consecutive strikes (normal play:
a legal prefix of a perfect game) leave `current_frame_index` at 10. -/
theorem claim2_tenth_strike_frame_index_ten :
    (rollSeq Game.default (List.replicate 10 10)).map Game.current_frame_index
      = some 10 := by decide

/-- C3: the claim says `roll()` and `score()` never panic within a game's
normal length.  A perfect game needs twelve rolls, but the eleventh
`roll(10)` indexes `frames[10]` out of bounds and panics (`none` here). -/
theorem claim3_eleventh_roll_panics :
    rollSeq Game.default (List.replicate 11 10) = none := by decide

/-- C7: from `Game::default()`, the rolls 5, 3, 10, 2, 5 yield
`score() == 32`. -/
theorem claim7_rolls_5_3_10_2_5_score_32 :
    (rollSeq Game.default [5, 3, 10, 2, 5]).map Game.score = some 32 := by
  decide

/-- C4: `Frame::score()` is the first roll plus the second roll (0 when
absent), plus — for a `Spare` bonus — the first roll once more, or — for a
`Strike` bonus — the first roll plus (when present) the second roll of this
same frame once more. -/
theorem claim4_frame_score_formula (f : Frame) :
    f.score =
      f.first_roll_pins + f.second_roll_pins.getD 0 +
        (match f.bonus with
         | none => 0
         | some FrameBonusType.Spare => f.first_roll_pins
         | some FrameBonusType.Strike =>
             f.first_roll_pins + f.second_roll_pins.getD 0) := by
  rcases f with ⟨fr, sr, b⟩
  rcases b with _ | b
  · cases sr <;> simp [Frame.score, Frame.rolls_score]
  · cases b <;> cases sr <;> (simp [Frame.score, Frame.rolls_score]; try ring)

/-- C5: `Game::score()` is the sum of the ten frames' individual
`Frame::score()` values, plus `bonus_tenth_frame_third_roll` when present
and nothing otherwise. -/
theorem claim5_game_score_sum (g : Game) :
    g.score = (g.frames.map Frame.score).sum +
      g.bonus_tenth_frame_third_roll.getD 0 :=
  score_eq_sum g

/-- C9: calling `score()` twice without an intervening `roll()` returns the
same value both times, and the call leaves the `Game` unchanged. -/
theorem claim9_score_idempotent (g : Game) :
    (g.scoreCall).2 = g ∧ ((g.scoreCall).2.scoreCall).1 = (g.scoreCall).1 :=
  ⟨rfl, rfl⟩

/-- C6: at the cursor (frame 9, roll 1), a roll that produces a bonus (at
roll index 1 that is the spare condition `pins + first_roll_pins == 10`)
sets `current_roll_index` to 2; the subsequent roll stores its pin count
into `bonus_tenth_frame_third_roll` and changes no frame's `bonus` field;
and at roll index 1 in any frame other than 9, a roll advances to the next
frame with roll index 0. -/
theorem claim6_tenth_frame_fill_ball :
    (∀ (g : Game) (pins pins2 : Int) (frame : Frame) (g1 g2 : Game),
        g.current_frame_index = 9 →
        g.current_roll_index = 1 →
        g.frames.get? 9 = some frame →
        pins + frame.first_roll_pins = 10 →
        g.roll pins = some g1 →
        g1.roll pins2 = some g2 →
        g1.current_roll_index = 2 ∧
          g2.bonus_tenth_frame_third_roll = some pins2 ∧
          g2.frames.map Frame.bonus = g1.frames.map Frame.bonus) ∧
    (∀ (g : Game) (pins : Int) (g1 : Game),
        g.current_roll_index = 1 →
        g.current_frame_index ≠ 9 →
        g.roll pins = some g1 →
        g1.current_frame_index = g.current_frame_index + 1 ∧
          g1.current_roll_index = 0) := by
  constructor
  · intro g pins pins2 frame g1 g2 h9 h1 hget hsp hr1 hr2
    have hget' : g.frames.get? g.current_frame_index = some frame := by
      rw [h9]; exact hget
    have hg1 : g1 = rollResult g frame pins := by
      have := roll_get?_some g pins frame hget'
      rw [this] at hr1
      injection hr1 with h
      exact h.symm
    have hb : rollBonus g.current_roll_index pins frame.first_roll_pins =
        some FrameBonusType.Spare := by
      rw [h1]
      show (if pins + frame.first_roll_pins = 10
            then some FrameBonusType.Spare else none) = some FrameBonusType.Spare
      rw [if_pos hsp]
    have hnext : set_next_indices g.current_frame_index g.current_roll_index
        (rollBonus g.current_roll_index pins frame.first_roll_pins) = (9, 2) := by
      rw [hb, h9, h1]
      rfl
    have hri1 : g1.current_roll_index = 2 := by
      rw [hg1]
      show (set_next_indices g.current_frame_index g.current_roll_index
        (rollBonus g.current_roll_index pins frame.first_roll_pins)).2 = 2
      rw [hnext]
    have hcfi1 : g1.current_frame_index = 9 := by
      rw [hg1]
      show (set_next_indices g.current_frame_index g.current_roll_index
        (rollBonus g.current_roll_index pins frame.first_roll_pins)).1 = 9
      rw [hnext]
    have hframes1 : g1.frames =
        modifyAt g.frames 9 (fun f => { f with second_roll_pins := some pins }) := by
      rw [hg1]
      show rollFrames2
        (rollFrames1 g.frames g.current_frame_index g.current_roll_index pins)
        g.current_frame_index
        (rollBonus g.current_roll_index pins frame.first_roll_pins) = _
      rw [h9, h1]
      rfl
    have hget1 : g1.frames.get? g1.current_frame_index =
        some { frame with second_roll_pins := some pins } := by
      rw [hcfi1, hframes1, modifyAt_get?, if_pos rfl, hget]
      rfl
    have hg2 : g2 = rollResult g1 { frame with second_roll_pins := some pins } pins2 := by
      have := roll_get?_some g1 pins2 _ hget1
      rw [this] at hr2
      injection hr2 with h
      exact h.symm
    refine ⟨hri1, ?_, ?_⟩
    · rw [hg2]
      show rollBttr g1.current_roll_index pins2 g1.bonus_tenth_frame_third_roll
        = some pins2
      rw [hri1]
      rfl
    · have hframes2 : g2.frames = g1.frames := by
        rw [hg2]
        show rollFrames2
          (rollFrames1 g1.frames g1.current_frame_index g1.current_roll_index pins2)
          g1.current_frame_index
          (rollBonus g1.current_roll_index pins2
            ({ frame with second_roll_pins := some pins } : Frame).first_roll_pins)
          = g1.frames
        rw [hri1, hcfi1]
        rfl
      rw [hframes2]
  · intro g pins g1 h1 h9 hr
    obtain ⟨frame, hget, hres⟩ := roll_some_get? g pins g1 hr
    have hnext : set_next_indices g.current_frame_index g.current_roll_index
        (rollBonus g.current_roll_index pins frame.first_roll_pins) =
        (g.current_frame_index + 1, 0) := by
      rw [h1]
      show (if g.current_frame_index ≠ 9 then (g.current_frame_index + 1, 0)
            else match rollBonus 1 pins frame.first_roll_pins with
                 | some _ => (g.current_frame_index, 2)
                 | none => (g.current_frame_index, 1)) = _
      rw [if_pos h9]
    constructor
    · rw [hres]
      show (set_next_indices g.current_frame_index g.current_roll_index
        (rollBonus g.current_roll_index pins frame.first_roll_pins)).1 = _
      rw [hnext]
    · rw [hres]
      show (set_next_indices g.current_frame_index g.current_roll_index
        (rollBonus g.current_roll_index pins frame.first_roll_pins)).2 = 0
      rw [hnext]

/-- Witness for C6: the two parts of `claim6_tenth_frame_fill_ball` applied
at the concrete games `gC6a` (spare in frame 9, then fill ball) and `gC6b`
(second roll in frame 3). -/
theorem claim6_tenth_frame_fill_ball_witness :
    (gC6a1.current_roll_index = 2 ∧
      gC6a2.bonus_tenth_frame_third_roll = some 3 ∧
      gC6a2.frames.map Frame.bonus = gC6a1.frames.map Frame.bonus) ∧
    (gC6b1.current_frame_index = 4 ∧ gC6b1.current_roll_index = 0) := by
  constructor
  · exact claim6_tenth_frame_fill_ball.1 gC6a 4 3
      { first_roll_pins := 6, second_roll_pins := none, bonus := none }
      gC6a1 gC6a2 rfl rfl (by decide) (by decide) (by decide) (by decide)
  · exact claim6_tenth_frame_fill_ball.2 gC6b 2 gC6b1 rfl (by decide) (by decide)

/-- C10: one `roll()` call changes at most the roll fields of the current
frame, the `bonus` field of the next frame, the cursor and the fill-ball
slot: every other frame keeps its `first_roll_pins` and `second_roll_pins`
(any frame other than the current one) and its `bonus` (any frame other
than the one at `current_frame_index + 1`), and the number of frames never
changes. -/
theorem claim10_roll_frame_effect :
    ∀ (g : Game) (pins : Int) (g' : Game),
      g.roll pins = some g' →
      g'.frames.length = g.frames.length ∧
      (∀ (j : Nat) (f f' : Frame),
          j ≠ g.current_frame_index →
          g.frames.get? j = some f → g'.frames.get? j = some f' →
          f'.first_roll_pins = f.first_roll_pins ∧
            f'.second_roll_pins = f.second_roll_pins) ∧
      (∀ (j : Nat) (f f' : Frame),
          j ≠ g.current_frame_index + 1 →
          g.frames.get? j = some f → g'.frames.get? j = some f' →
          f'.bonus = f.bonus) := by
  intro g pins g' hroll
  obtain ⟨frame, hget, hres⟩ := roll_some_get? g pins g' hroll
  have hframes : g'.frames = rollFrames2
      (rollFrames1 g.frames g.current_frame_index g.current_roll_index pins)
      g.current_frame_index
      (rollBonus g.current_roll_index pins frame.first_roll_pins) := by
    rw [hres]
    rfl
  refine ⟨?_, ?_, ?_⟩
  · rw [hframes, rollFrames2_length, rollFrames1_length]
  · intro j f f' hj hgf hgf'
    have h2 := rollFrames2_get?_rolls
      (rollFrames1 g.frames g.current_frame_index g.current_roll_index pins)
      g.current_frame_index
      (rollBonus g.current_roll_index pins frame.first_roll_pins) j
    rw [rollFrames1_get?_ne _ _ _ _ _ hj, ← hframes, hgf, hgf'] at h2
    injection h2 with h2
    exact ⟨congrArg Prod.fst h2, congrArg Prod.snd h2⟩
  · intro j f f' hj hgf hgf'
    have h2 := rollFrames1_get?_bonus g.frames g.current_frame_index
      g.current_roll_index pins j
    rw [← rollFrames2_get?_ne
        (rollFrames1 g.frames g.current_frame_index g.current_roll_index pins)
        g.current_frame_index
        (rollBonus g.current_roll_index pins frame.first_roll_pins) j hj,
      ← hframes, hgf, hgf'] at h2
    injection h2

theorem get?_replicate_default (n j : Nat) (f : Frame)
    (h : (List.replicate n Frame.default).get? j = some f) : f = Frame.default := by
  induction n generalizing j with
  | zero => exact absurd h (by simp)
  | succ m ih =>
      cases j with
      | zero =>
          have h' : some Frame.default = some f := h
          injection h' with h'
          exact h'.symm
      | succ k => exact ih k h

theorem gameInv_default : GameInv Game.default := by
  refine ⟨rfl, by decide, ?_, ?_, ?_, ?_⟩
  · intro _ j _ f hf
    rw [get?_replicate_default 10 j f hf]
    exact ⟨rfl, rfl⟩
  · intro h1
    exact absurd h1 (by decide)
  · intro h1
    exact absurd h1 (by decide)
  · intro h2
    exact absurd h2 (by decide)

theorem get?_lt_length (l : List Frame) (i : Nat) (f : Frame)
    (h : l.get? i = some f) : i < l.length := by
  by_contra hle
  rw [List.get?_eq_none.mpr (Nat.le_of_not_lt hle)] at h
  cases h

theorem get?_of_lt_length (l : List Frame) (i : Nat) (h : i < l.length) :
    ∃ f, l.get? i = some f := by
  cases hg : l.get? i with
  | none => exact absurd (List.get?_eq_none.mp hg) (Nat.not_le_of_lt h)
  | some f => exact ⟨f, rfl⟩

/-- Roll fields of every frame other than the current one survive a roll. -/
theorem rolls_preserved (g : Game) (frame : Frame) (pins : Int) (j : Nat)
    (hj : j ≠ g.current_frame_index) (f' : Frame)
    (hf' : (rollResult g frame pins).frames.get? j = some f') :
    ∃ f, g.frames.get? j = some f ∧
      f'.first_roll_pins = f.first_roll_pins ∧
      f'.second_roll_pins = f.second_roll_pins := by
  have h2 := rollFrames2_get?_rolls
    (rollFrames1 g.frames g.current_frame_index g.current_roll_index pins)
    g.current_frame_index
    (rollBonus g.current_roll_index pins frame.first_roll_pins) j
  rw [rollFrames1_get?_ne _ _ _ _ _ hj] at h2
  have hf'2 : (rollFrames2
      (rollFrames1 g.frames g.current_frame_index g.current_roll_index pins)
      g.current_frame_index
      (rollBonus g.current_roll_index pins frame.first_roll_pins)).get? j
      = some f' := hf'
  rw [hf'2] at h2
  cases hg : g.frames.get? j with
  | none => rw [hg] at h2; cases h2
  | some f =>
      rw [hg] at h2
      injection h2 with h2
      exact ⟨f, rfl, congrArg Prod.fst h2, congrArg Prod.snd h2⟩

/-- One successful roll preserves the normal-play invariant. -/
theorem gameInv_step (g : Game) (pins : Int) (g' : Game) (inv : GameInv g)
    (hr : g.roll pins = some g') : GameInv g' := by
  obtain ⟨frame, hget, hres⟩ := roll_some_get? g pins g' hr
  have hlen' : g'.frames.length = 10 := by
    rw [hres]
    show (rollFrames2
      (rollFrames1 g.frames g.current_frame_index g.current_roll_index pins)
      g.current_frame_index
      (rollBonus g.current_roll_index pins frame.first_roll_pins)).length = 10
    rw [rollFrames2_length, rollFrames1_length, inv.len]
  have hcfi' : g'.current_frame_index =
      (set_next_indices g.current_frame_index g.current_roll_index
        (rollBonus g.current_roll_index pins frame.first_roll_pins)).1 := by
    rw [hres]; rfl
  have hri' : g'.current_roll_index =
      (set_next_indices g.current_frame_index g.current_roll_index
        (rollBonus g.current_roll_index pins frame.first_roll_pins)).2 := by
    rw [hres]; rfl
  have hpres : ∀ j, j ≠ g.current_frame_index → ∀ f',
      g'.frames.get? j = some f' →
      ∃ f, g.frames.get? j = some f ∧
        f'.first_roll_pins = f.first_roll_pins ∧
        f'.second_roll_pins = f.second_roll_pins := by
    intro j hj f' hf'
    rw [hres] at hf'
    exact rolls_preserved g frame pins j hj f' hf'
  have hri3 : g.current_roll_index = 0 ∨ g.current_roll_index = 1 ∨
      g.current_roll_index = 2 := by
    have := inv.rollIdxLe
    omega
  rcases hri3 with hri | hri | hri
  · -- first roll of the frame
    by_cases hstrike : pins = 10
    · -- strike: the cursor advances to the next frame (no frame-9 guard)
      have hb : rollBonus g.current_roll_index pins frame.first_roll_pins =
          some FrameBonusType.Strike := by
        rw [hri]
        show (if pins = 10 then some FrameBonusType.Strike else none) = _
        rw [if_pos hstrike]
      rw [hb, hri] at hcfi' hri'
      have hcfi2 : g'.current_frame_index = g.current_frame_index + 1 := hcfi'
      have hri2 : g'.current_roll_index = 0 := hri'
      refine ⟨hlen', by omega, ?_, ?_, ?_, ?_⟩
      · intro _ j hj f' hf'
        rw [hcfi2] at hj
        obtain ⟨f, hgf, he1, he2⟩ := hpres j (by omega) f' hf'
        have hold := inv.ahead0 hri j (by omega) f hgf
        exact ⟨he1.trans hold.1, he2.trans hold.2⟩
      · intro h1; omega
      · intro h1; omega
      · intro h2; omega
    · -- open frame: the cursor moves to the second roll
      have hb : rollBonus g.current_roll_index pins frame.first_roll_pins =
          none := by
        rw [hri]
        show (if pins = 10 then some FrameBonusType.Strike else none) = _
        rw [if_neg hstrike]
      rw [hb, hri] at hcfi' hri'
      have hcfi2 : g'.current_frame_index = g.current_frame_index := hcfi'
      have hri2 : g'.current_roll_index = 1 := hri'
      refine ⟨hlen', by omega, ?_, ?_, ?_, ?_⟩
      · intro h0; omega
      · intro _ j hj f' hf'
        rw [hcfi2] at hj
        obtain ⟨f, hgf, he1, he2⟩ := hpres j (by omega) f' hf'
        have hold := inv.ahead0 hri j (by omega) f hgf
        exact ⟨he1.trans hold.1, he2.trans hold.2⟩
      · intro _ _ f' hf'
        rw [hcfi2] at hf'
        rw [hres] at hf'
        have hf1 : (rollFrames1 g.frames g.current_frame_index
            g.current_roll_index pins).get? g.current_frame_index =
            some { frame with first_roll_pins := pins } := by
          rw [hri]
          show (modifyAt g.frames g.current_frame_index
            (fun f => { f with first_roll_pins := pins })).get?
              g.current_frame_index = _
          rw [modifyAt_get?, if_pos rfl, hget]
          rfl
        have h2 := rollFrames2_get?_rolls
          (rollFrames1 g.frames g.current_frame_index g.current_roll_index pins)
          g.current_frame_index
          (rollBonus g.current_roll_index pins frame.first_roll_pins)
          g.current_frame_index
        have hf'2 : (rollFrames2
            (rollFrames1 g.frames g.current_frame_index g.current_roll_index pins)
            g.current_frame_index
            (rollBonus g.current_roll_index pins frame.first_roll_pins)).get?
              g.current_frame_index = some f' := hf'
        rw [hf'2, hf1] at h2
        injection h2 with h2
        have hsecond : f'.second_roll_pins = frame.second_roll_pins :=
          congrArg Prod.snd h2
        rw [hsecond]
        exact (inv.ahead0 hri g.current_frame_index (Nat.le_refl _) frame hget).2
      · intro h2; omega
  · -- second roll of the frame
    by_cases hc9 : g.current_frame_index = 9
    · by_cases hsp : pins + frame.first_roll_pins = 10
      · -- spare in frame 9: the fill ball is granted
        have hb : rollBonus g.current_roll_index pins frame.first_roll_pins =
            some FrameBonusType.Spare := by
          rw [hri]
          show (if pins + frame.first_roll_pins = 10
            then some FrameBonusType.Spare else none) = _
          rw [if_pos hsp]
        rw [hb, hri, hc9] at hcfi' hri'
        have hcfi2 : g'.current_frame_index = 9 := hcfi'
        have hri2 : g'.current_roll_index = 2 := hri'
        refine ⟨hlen', by omega, ?_, ?_, ?_, ?_⟩
        · intro h0; omega
        · intro h1; omega
        · intro h1; omega
        · intro _; exact hcfi2
      · -- open tenth frame: terminal state, cursor stays at (9, 1)
        have hb : rollBonus g.current_roll_index pins frame.first_roll_pins =
            none := by
          rw [hri]
          show (if pins + frame.first_roll_pins = 10
            then some FrameBonusType.Spare else none) = _
          rw [if_neg hsp]
        rw [hb, hri, hc9] at hcfi' hri'
        have hcfi2 : g'.current_frame_index = 9 := hcfi'
        have hri2 : g'.current_roll_index = 1 := hri'
        refine ⟨hlen', by omega, ?_, ?_, ?_, ?_⟩
        · intro h0; omega
        · intro _ j hj f' hf'
          rw [hcfi2] at hj
          have hnone : g'.frames.get? j = none :=
            List.get?_eq_none.mpr (by rw [hlen']; omega)
          rw [hnone] at hf'
          cases hf'
        · intro _ hne
          rw [hcfi2] at hne
          exact absurd rfl hne
        · intro h2; omega
    · -- frame other than 9: advance to the next frame
      have hnext : set_next_indices g.current_frame_index g.current_roll_index
          (rollBonus g.current_roll_index pins frame.first_roll_pins) =
          (g.current_frame_index + 1, 0) := by
        rw [hri]
        show (if g.current_frame_index ≠ 9 then (g.current_frame_index + 1, 0)
              else match rollBonus 1 pins frame.first_roll_pins with
                   | some _ => (g.current_frame_index, 2)
                   | none => (g.current_frame_index, 1)) = _
        rw [if_pos hc9]
      rw [hnext] at hcfi' hri'
      have hcfi2 : g'.current_frame_index = g.current_frame_index + 1 := hcfi'
      have hri2 : g'.current_roll_index = 0 := hri'
      refine ⟨hlen', by omega, ?_, ?_, ?_, ?_⟩
      · intro _ j hj f' hf'
        rw [hcfi2] at hj
        obtain ⟨f, hgf, he1, he2⟩ := hpres j (by omega) f' hf'
        have hold := inv.ahead1 hri j (by omega) f hgf
        exact ⟨he1.trans hold.1, he2.trans hold.2⟩
      · intro h1; omega
      · intro h1; omega
      · intro h2; omega
  · -- fill ball: cursor parked at (9, 2), frames untouched
    have hc9 := inv.ri2 hri
    have hb : rollBonus g.current_roll_index pins frame.first_roll_pins =
        none := by rw [hri]; rfl
    rw [hb, hri] at hcfi' hri'
    have hcfi2 : g'.current_frame_index = g.current_frame_index := hcfi'
    have hri2 : g'.current_roll_index = 2 := hri'
    refine ⟨hlen', by omega, ?_, ?_, ?_, ?_⟩
    · intro h0; omega
    · intro h1; omega
    · intro h1; omega
    · intro _; rw [hcfi2]; exact hc9

theorem modifyAt_oob (l : List Frame) (i : Nat) (f : Frame → Frame)
    (h : l.length ≤ i) : modifyAt l i f = l := by
  induction l generalizing i with
  | nil => rfl
  | cons x xs ih =>
      cases i with
      | zero => exact absurd h (by simp)
      | succ n =>
          simp only [modifyAt]
          rw [ih n (by simpa using h)]

/-- Writing a bonus tag into the next frame leaves the total frame score
unchanged whenever that frame still has its default roll fields (a bonus
tag only ever duplicates the rolls of the frame that carries it). -/
theorem sum_rollFrames2 (frames1 : List Frame) (cfi : Nat)
    (b : Option FrameBonusType)
    (h : ∀ f, frames1.get? (cfi + 1) = some f →
      f.first_roll_pins = 0 ∧ f.second_roll_pins = none) :
    ((rollFrames2 frames1 cfi b).map Frame.score).sum =
      (frames1.map Frame.score).sum := by
  unfold rollFrames2 nextFrameIndex
  by_cases hlt : cfi + 1 < 10
  · rw [if_pos hlt]
    show ((modifyAt frames1 (cfi + 1)
      (fun f => { f with bonus := b })).map Frame.score).sum = _
    cases hy : frames1.get? (cfi + 1) with
    | none =>
        rw [modifyAt_oob _ _ _ (List.get?_eq_none.mp hy)]
    | some y =>
        rw [sum_map_score_modifyAt _ _ _ y hy,
          frame_score_bonus_write y b (h y hy).1 (h y hy).2]
        ring
  · rw [if_neg hlt]

theorem finished_false_second_none (g : Game) (frame : Frame)
    (hfin : g.finished = false) (hri : g.current_roll_index = 1)
    (hc9 : g.current_frame_index = 9)
    (hget : g.frames.get? 9 = some frame) : frame.second_roll_pins = none := by
  unfold Game.finished at hfin
  rw [hget, hc9, hri] at hfin
  simpa using hfin

theorem finished_false_bttr_none (g : Game) (hfin : g.finished = false)
    (hri : g.current_roll_index = 2) :
    g.bonus_tenth_frame_third_roll = none := by
  unfold Game.finished at hfin
  rw [hri] at hfin
  simpa using hfin

/-- One successful roll of a non-negative pin count from a reachable,
unfinished state cannot decrease the total score. -/
theorem score_le_step (g : Game) (pins : Int) (g' : Game) (inv : GameInv g)
    (hfin : g.finished = false) (hp : 0 ≤ pins) (hr : g.roll pins = some g') :
    g.score ≤ g'.score := by
  obtain ⟨frame, hget, hres⟩ := roll_some_get? g pins g' hr
  have hframes : g'.frames = rollFrames2
      (rollFrames1 g.frames g.current_frame_index g.current_roll_index pins)
      g.current_frame_index
      (rollBonus g.current_roll_index pins frame.first_roll_pins) := by
    rw [hres]; rfl
  have hbttr : g'.bonus_tenth_frame_third_roll =
      rollBttr g.current_roll_index pins g.bonus_tenth_frame_third_roll := by
    rw [hres]; rfl
  have hri3 : g.current_roll_index = 0 ∨ g.current_roll_index = 1 ∨
      g.current_roll_index = 2 := by
    have := inv.rollIdxLe
    omega
  rw [score_eq_sum, score_eq_sum]
  rcases hri3 with hri | hri | hri
  · -- first roll: the current frame gains `pins`, counted once or twice
    have hzero := inv.ahead0 hri g.current_frame_index (Nat.le_refl _) frame hget
    have hf1 : rollFrames1 g.frames g.current_frame_index
        g.current_roll_index pins =
        modifyAt g.frames g.current_frame_index
          (fun f => { f with first_roll_pins := pins }) := by
      rw [hri]
      rfl
    have hbt : rollBttr g.current_roll_index pins
        g.bonus_tenth_frame_third_roll = g.bonus_tenth_frame_third_roll := by
      rw [hri]
      rfl
    have hcond : ∀ f, (modifyAt g.frames g.current_frame_index
        (fun f => { f with first_roll_pins := pins })).get?
          (g.current_frame_index + 1) = some f →
        f.first_roll_pins = 0 ∧ f.second_roll_pins = none := by
      intro f hf
      rw [modifyAt_get?_ne _ _ _ _ (by omega)] at hf
      exact inv.ahead0 hri (g.current_frame_index + 1) (by omega) f hf
    rw [hframes, hf1, hbttr, hbt, sum_rollFrames2 _ _ _ hcond,
      sum_map_score_modifyAt _ _ _ frame hget]
    have hmono := frame_score_first_write frame pins hzero.1 hzero.2 hp
    linarith
  · -- second roll: the current frame gains `pins`, counted once or twice
    have hsecond : frame.second_roll_pins = none := by
      by_cases hc9 : g.current_frame_index = 9
      · exact finished_false_second_none g frame hfin hri hc9 (by rw [← hc9]; exact hget)
      · exact inv.cur1 hri hc9 frame hget
    have hf1 : rollFrames1 g.frames g.current_frame_index
        g.current_roll_index pins =
        modifyAt g.frames g.current_frame_index
          (fun f => { f with second_roll_pins := some pins }) := by
      rw [hri]
      rfl
    have hbt : rollBttr g.current_roll_index pins
        g.bonus_tenth_frame_third_roll = g.bonus_tenth_frame_third_roll := by
      rw [hri]
      rfl
    have hcond : ∀ f, (modifyAt g.frames g.current_frame_index
        (fun f => { f with second_roll_pins := some pins })).get?
          (g.current_frame_index + 1) = some f →
        f.first_roll_pins = 0 ∧ f.second_roll_pins = none := by
      intro f hf
      rw [modifyAt_get?_ne _ _ _ _ (by omega)] at hf
      exact inv.ahead1 hri (g.current_frame_index + 1) (by omega) f hf
    rw [hframes, hf1, hbttr, hbt, sum_rollFrames2 _ _ _ hcond,
      sum_map_score_modifyAt _ _ _ frame hget]
    have hmono := frame_score_second_write frame pins hsecond hp
    linarith
  · -- fill ball: the frames are untouched and the fill pins are added
    have hc9 := inv.ri2 hri
    have hbn := finished_false_bttr_none g hfin hri
    have hfr : rollFrames2
        (rollFrames1 g.frames g.current_frame_index g.current_roll_index pins)
        g.current_frame_index
        (rollBonus g.current_roll_index pins frame.first_roll_pins) =
        g.frames := by
      rw [hri, hc9]
      rfl
    have hbt : rollBttr g.current_roll_index pins
        g.bonus_tenth_frame_third_roll = some pins := by
      rw [hri]
      rfl
    rw [hframes, hfr, hbttr, hbt, hbn]
    simp
    exact hp

theorem normalPlay_inv (g : Game) (h : NormalPlay g) : GameInv g := by
  induction h with
  | init => exact gameInv_default
  | step g1 g2 pins _ _ _ hr ih => exact gameInv_step g1 pins g2 ih hr

/-- C8 counterexample: the claim quantifies over every sequence of
non-negative rolls, with no normal-play restriction.  After eighteen 0s
(frames 0-8 open) and then 5 and 4 in frame 9 the game is finished with
score 9 and the cursor parked at (9, 1); one more non-negative roll of 2
overwrites the tenth frame's second roll, and the score drops to 7. -/
theorem claim8_counterexample :
    (rollSeq Game.default (List.replicate 18 0 ++ [5, 4])).map Game.score
      = some 9 ∧
    (rollSeq Game.default (List.replicate 18 0 ++ [5, 4, 2])).map Game.score
      = some 7 ∧
    (∀ p ∈ (List.replicate 18 0 ++ [5, 4, 2] : List Int), 0 ≤ p) ∧
    ¬ ((9 : Int) ≤ 7) := by
  refine ⟨by decide, by decide, by decide, by decide⟩

/-- C8 (amended): restricted to normal play — states reached from
`Game::default()` by successful non-negative rolls that never continue past
a finished game — one more successful roll of a non-negative pin count
never decreases `score()`.  (Without the normal-play restriction the claim
fails: see the counterexample, where a roll after game completion
overwrites the tenth frame's second roll.) -/
theorem claim8_score_monotone_normal_play (g : Game) (pins : Int) (g' : Game)
    (hnp : NormalPlay g) (hfin : g.finished = false) (hp : 0 ≤ pins)
    (hr : g.roll pins = some g') : g.score ≤ g'.score :=
  score_le_step g pins g' (normalPlay_inv g hnp) hfin hp hr

/-- Witness for C8: one roll of 5 from the fresh game does not decrease the
score. -/
theorem claim8_score_monotone_normal_play_witness :
    Game.default.score ≤ gC8.score :=
  claim8_score_monotone_normal_play Game.default 5 gC8 NormalPlay.init
    (by decide) (by decide) (by decide)

/-- Witness for C10: `claim10_roll_frame_effect` applied to one roll of 4
from `Game.default`, read off at the untouched frame 5. -/
theorem claim10_roll_frame_effect_witness :
    gC10.frames.length = Game.default.frames.length ∧
    fC10.first_roll_pins = Frame.default.first_roll_pins ∧
    fC10.bonus = Frame.default.bonus := by
  have h := claim10_roll_frame_effect Game.default 4 gC10 (by decide)
  exact ⟨h.1,
    (h.2.1 5 Frame.default fC10 (by decide) (by decide) (by decide)).1,
    h.2.2 5 Frame.default fC10 (by decide) (by decide) (by decide)⟩

end Bowling
